import Mathlib

/-!
# Superbridge watcher: shallow embedding and verification

This file embeds the reconciliation logic of the superbridge watcher
repository (the minimal variant `src/watcher.js` and the unified
watcher+executor variant) and proves properties of the embedding.

Modelling conventions:
* Chain identifiers, addresses, amounts, block numbers and signatures are
  `Nat` (transfer identifiers are opaque keys; amounts fit in `uint256`
  and the code never does arithmetic on them).
* External collaborators (the two chain RPC clients and the record store)
  are modelled as response oracles: every external call's outcome is a
  field of an environment structure, and the embedding is the pure control
  flow of the JavaScript given those outcomes.  A JavaScript call that can
  throw is an `Except Unit _` response; a Supabase call returns an error
  object instead of throwing, so it is an `Option StoreErr` / plain value.
* The record store is abstracted as a `StoreIface S` (state-passing
  interface); `supaIface` instantiates it with faithful single-row
  semantics over a list of rows, and scripted instantiations model
  externally observed responses (e.g. an insert conflict raced in by
  another writer).
* Side effects are reified as an `Action` trace so that theorems can speak
  about which writes and chain calls happened.
-/

namespace SuperbridgeWatcher

deriving instance DecidableEq for Except

/-- Result of the on-chain `getTransfer` view call:
`(user, originalAmount, bridgedAmount, timestamp, status)` with
status `0 = Pending`, `1 = Completed`, `2 = Refunded`. -/
structure Transfer where
  user : Nat
  originalAmount : Nat
  bridgedAmount : Nat
  timestamp : Nat
  status : Nat
deriving DecidableEq

/-- A decoded `BridgeInitiated(user, originalAmount, bridgedAmount,
transferId, timestamp)` event together with its block number. -/
structure InitEvent where
  user : Nat
  originalAmount : Nat
  bridgedAmount : Nat
  transferId : Nat
  timestamp : Nat
  blockNumber : Nat
deriving DecidableEq

/-- A decoded `Refunded(transferId, user, amount)` event together with its
block number. -/
structure RefundEvent where
  transferId : Nat
  user : Nat
  amount : Nat
  blockNumber : Nat
deriving DecidableEq

/-- Record-store (Supabase) error values.  `conflict` is the unique-key
violation returned by an insert on an existing identifier. -/
inductive StoreErr where
  | conflict
  | other
deriving DecidableEq

/-- The `status` column of a record-store row. -/
inductive RecStatus where
  | pendingRow
  | completedRow
  | refundedRow
deriving DecidableEq

/-- One row of the `bridged_events` table. -/
structure Row where
  tx_id : Nat
  address : Nat
  bridged_amount : Nat
  status : RecStatus
  block_number : Nat
  timestamp : Nat
  l1_block_number : Option Nat := none
  signature1 : Option Nat := none
deriving DecidableEq

/-- The reified side effects of one cycle.  Store writes appear only when
the corresponding store call reported success; chain transaction
submissions appear whenever the corresponding call was made. -/
inductive Action where
  /-- the Supabase existence check itself errored; event skipped -/
  | selectErrorSkip (id : Nat)
  /-- identifier already present in the store; event skipped -/
  | skipAlreadyInStore (id : Nat)
  /-- successful insert of a `pending` row -/
  | storeInsert (id : Nat)
  /-- the insert returned an error object; logged, processing continues -/
  | insertErrorLogged (id : Nat)
  /-- on-chain status was not Pending at observation; event skipped -/
  | skipNotPending (id : Nat) (status : Nat)
  /-- the n-th submission of the L1 `payout` transaction (1-based) -/
  | payoutAttempt (id : Nat) (n : Nat)
  /-- a payout confirmation receipt was observed -/
  | payoutConfirmed (id : Nat)
  /-- a payout attempt threw; logged (minimal watcher variant) -/
  | payoutErrorLogged (id : Nat)
  /-- all payout attempts failed; logged -/
  | payoutFailedAll (id : Nat)
  /-- a sleep of `ms` milliseconds between payout attempts -/
  | waitMs (ms : Nat)
  /-- a digest was produced and signed in the completion phase -/
  | signedDigest (d : List Nat)
  /-- the L2 `complete` transaction was submitted -/
  | completeCall (id : Nat)
  /-- successful store update to Completed with block and signature -/
  | storeUpdateCompleted (id : Nat)
  /-- completion guard: status already Completed, skipped -/
  | skipCompletedStatus (id : Nat)
  /-- completion guard: status already Refunded, skipped -/
  | skipRefundedStatus (id : Nat)
  /-- completion guard: unknown non-Pending status, skipped -/
  | skipUnknownStatus (id : Nat)
  /-- an error inside the completion phase was caught and logged -/
  | completionError (id : Nat)
  /-- successful store update of the status to refunded -/
  | storeUpdateRefunded (id : Nat)
  /-- the refund update returned an error object; logged -/
  | refundUpdateErrorLogged (id : Nat)
  /-- the fixed one-second delay between initiation events -/
  | eventDelay
deriving DecidableEq

/-- Abstract record-store interface, state-passing over a store state `S`.
Mirrors the four Supabase calls the watcher makes (select by identifier,
insert, update-to-refunded, update-to-completed).  Supabase calls do not
throw; they return an error object, modelled as the `Option StoreErr`
(resp. `Except Unit _`) component of the response. -/
structure StoreIface (S : Type) where
  selectIds : S → Nat → (Except Unit (List Nat)) × S
  insert : S → Row → (Option StoreErr) × S
  updateRefunded : S → Nat → (Option StoreErr) × S
  updateCompleted : S → Nat → Nat → Nat → (Option StoreErr) × S

/-- Responses of every chain RPC call made while processing a single
initiation event.  `Except Unit _` responses model calls that throw. -/
structure ChainEnv where
  /-- `l2.getTransfer` in the main event loop (before storing) -/
  transferResult : Except Unit Transfer
  /-- whether the payout attempt with 0-based index `n` succeeds -/
  payoutOutcome : Nat → Bool
  /-- block number of the payout confirmation receipt -/
  payoutBlockNumber : Nat
  /-- `getTransfer` at the start of the completion phase -/
  completionTransfer : Except Unit Transfer
  /-- outcome of `wallet.signMessage` over the digest (the signature) -/
  signResult : Except Unit Nat
  /-- `getTransfer` for the pre-submission double check -/
  doubleCheckResult : Except Unit Transfer
  /-- outcome of `callCompleteOnL2` (the L2 transaction hash) -/
  completeResult : Except Unit Nat

/-- Contract addresses from the environment configuration:
`NEXT_PUBLIC_SUPERBRIDGE_L2_ADDRESS` (source chain, where `complete` is
called) and `NEXT_PUBLIC_SUPERBRIDGE_L1_ADDRESS` (destination chain,
where `payout` is called). -/
structure Config where
  l2Address : Nat
  l1Address : Nat
deriving DecidableEq

/-- Big-endian fixed-width byte encoding, as `ethers.solidityPacked` uses
for `bytes32` / `address` / `uint256` values. -/
def toBytesBE (w n : Nat) : List Nat :=
  (List.range w).map (fun i => n / 256 ^ (w - 1 - i) % 256)

/-- The raw digest computed by `signMessage`:
`keccak256(solidityPacked(['bytes32','address','uint256','address'],
[transferId, user, bridgedAmount, contractAddress]))`.
The hash itself is a parameter (`keccak`); the embedding fixes only the
preimage fed to it. -/
def signMessageDigest (keccak : List Nat → List Nat)
    (transferId user bridgedAmount contractAddress : Nat) : List Nat :=
  keccak (toBytesBE 32 transferId ++ toBytesBE 20 user ++
    toBytesBE 32 bridgedAmount ++ toBytesBE 20 contractAddress)

/-! ## Payout retry loop (unified variant, lines 386-414)

The JavaScript loop is
`while (retryCount < maxRetries && !payoutSuccess)` with `maxRetries = 3`;
a failed attempt increments `retryCount` and, when `retryCount <
maxRetries` still holds, sleeps `2 ^ retryCount * 1000` milliseconds.
`payoutLoopAux` carries the remaining iteration budget
`fuel = maxRetries - retryCount` as a structural argument. -/

/-- One payout retry loop from the given `retryCount`, with
`fuel = maxRetries - retryCount` remaining iterations.  Returns the action
trace and the final `payoutSuccess` flag. -/
def payoutLoopAux (outcome : Nat → Bool) (id : Nat) :
    Nat → Nat → List Action × Bool
  | _, 0 => ([], false)
  | retryCount, fuel + 1 =>
    if outcome retryCount then
      ([.payoutAttempt id (retryCount + 1), .payoutConfirmed id], true)
    else
      if fuel = 0 then
        ([.payoutAttempt id (retryCount + 1), .payoutFailedAll id], false)
      else
        let waitTime := 2 ^ (retryCount + 1) * 1000
        let rest := payoutLoopAux outcome id (retryCount + 1) fuel
        (.payoutAttempt id (retryCount + 1) :: .waitMs waitTime :: rest.1,
          rest.2)

/-- The payout submission loop with `retryCount = 0`, `maxRetries = 3`. -/
def payoutLoop (outcome : Nat → Bool) (id : Nat) : List Action × Bool :=
  payoutLoopAux outcome id 0 3

/-- C2 helper: the number of payout attempts in a trace. -/
def attemptCount (id : Nat) (acts : List Action) : Nat :=
  (acts.filter (fun a => match a with
    | .payoutAttempt j _ => j == id
    | _ => false)).length

/-- C2 helper: the sleeps in a trace, in order. -/
def waitsOf (acts : List Action) : List Nat :=
  acts.filterMap (fun a => match a with
    | .waitMs ms => some ms
    | _ => none)

/-! ## Chunked log scanning

Both variants query event logs with the loop
`while (fromBlock <= currentBlock) { toBlock = min(fromBlock + 499,
currentBlock); queryFilter(filter, fromBlock, toBlock); fromBlock =
toBlock + 1 }`.  `fuel = toBlock + 1 - fromBlock` bounds the iteration
count (each iteration advances `fromBlock` by at least one). -/

/-- The sub-ranges `[fromBlock, toBlock]` the chunk loop queries, given
enough fuel. -/
def chunkRangesAux (toBlock : Nat) : Nat → Nat → List (Nat × Nat)
  | _, 0 => []
  | fromBlock, fuel + 1 =>
    if fromBlock ≤ toBlock then
      (fromBlock, min (fromBlock + 499) toBlock) ::
        chunkRangesAux toBlock (min (fromBlock + 499) toBlock + 1) fuel
    else []

/-- The sub-ranges the chunk loop queries for the range
`[fromBlock, toBlock]`. -/
def chunkRanges (fromBlock toBlock : Nat) : List (Nat × Nat) :=
  chunkRangesAux toBlock fromBlock (toBlock + 1 - fromBlock)

/-- The chunk loop itself: queries each sub-range in ascending order and
concatenates the decoded events; the first thrown RPC error aborts the
whole scan. -/
def scanChunksAux {ε : Type} (q : Nat → Nat → Except Unit (List ε))
    (toBlock : Nat) : Nat → Nat → Except Unit (List ε)
  | _, 0 => .ok []
  | fromBlock, fuel + 1 =>
    if fromBlock ≤ toBlock then
      match q fromBlock (min (fromBlock + 499) toBlock) with
      | .error e => .error e
      | .ok evs =>
        match scanChunksAux q toBlock (min (fromBlock + 499) toBlock + 1) fuel with
        | .error e => .error e
        | .ok rest => .ok (evs ++ rest)
    else .ok []

/-- The chunked scan over the range `[fromBlock, toBlock]`. -/
def scanChunks {ε : Type} (q : Nat → Nat → Except Unit (List ε))
    (fromBlock toBlock : Nat) : Except Unit (List ε) :=
  scanChunksAux q toBlock fromBlock (toBlock + 1 - fromBlock)

/-! ## Per-event processing (unified watcher+executor variant) -/

/-- The row the watcher inserts for a pending initiation event
(`status: 'pending'`, the event's fields stringified). -/
def mkRow (e : InitEvent) : Row :=
  { tx_id := e.transferId
    address := e.user
    bridged_amount := e.bridgedAmount
    status := .pendingRow
    block_number := e.blockNumber
    timestamp := e.timestamp }

/-- The part of `processPayoutCompletion` after the signature exists:
double-check the authoritative status and, only when it is still Pending,
call `complete` on L2 and update the record store.  Every failure is
caught by the function's catch-all and logged (`completionError`). -/
def completionAfterSign {S : Type} (iface : StoreIface S) (env : ChainEnv)
    (transferId payoutBlockNumber signature : Nat) (s : S) :
    List Action × S :=
  match env.doubleCheckResult with
  | .error _ => ([.completionError transferId], s)
  | .ok doubleCheck =>
    if doubleCheck.status = 1 then
      ([.skipCompletedStatus transferId], s)
    else if doubleCheck.status = 2 then
      ([.skipRefundedStatus transferId], s)
    else if doubleCheck.status ≠ 0 then
      ([.skipUnknownStatus transferId], s)
    else
      match env.completeResult with
      | .error _ =>
        ([.completeCall transferId, .completionError transferId], s)
      | .ok _l2TxHash =>
        match iface.updateCompleted s transferId payoutBlockNumber
          signature with
        | (some _, s2) =>
          ([.completeCall transferId, .completionError transferId], s2)
        | (none, s2) =>
          ([.completeCall transferId, .storeUpdateCompleted transferId], s2)

/-- `processPayoutCompletion` (unified variant): fetch the transfer, sign
the digest over `(transferId, transfer.user, transfer.bridgedAmount,
L2_ADDRESS)`, then run `completionAfterSign`.  The whole body is wrapped
in a catch-all, so it never throws into the tick. -/
def processPayoutCompletion {S : Type} (iface : StoreIface S)
    (keccak : List Nat → List Nat) (cfg : Config) (env : ChainEnv)
    (transferId _user _bridgedAmount payoutBlockNumber : Nat) (s : S) :
    List Action × S :=
  match env.completionTransfer with
  | .error _ => ([.completionError transferId], s)
  | .ok transfer =>
    match env.signResult with
    | .error _ => ([.completionError transferId], s)
    | .ok signature =>
      let d := signMessageDigest keccak transferId transfer.user
        transfer.bridgedAmount cfg.l2Address
      let rest := completionAfterSign iface env transferId
        payoutBlockNumber signature s
      (.signedDigest d :: rest.1, rest.2)

/-- Processing of one `BridgeInitiated` event in the unified variant's
tick loop.  A `.error` result models the uncaught `getTransfer` throw,
which propagates to the tick's catch; `.ok` covers every other path
(including the `continue` skips).  Both carry the action trace and the
store state as of that point. -/
def processInitEvent {S : Type} (iface : StoreIface S)
    (keccak : List Nat → List Nat) (cfg : Config) (env : ChainEnv)
    (e : InitEvent) (s : S) :
    Except (List Action × S) (List Action × S) :=
  match iface.selectIds s e.transferId with
  | (.error _, s1) => .ok ([.selectErrorSkip e.transferId], s1)
  | (.ok existing, s1) =>
    if 0 < existing.length then
      .ok ([.skipAlreadyInStore e.transferId], s1)
    else
      match env.transferResult with
      | .error _ => .error ([], s1)
      | .ok transfer =>
        if transfer.status = 0 then
          match iface.insert s1 (mkRow e) with
          | (insertErr, s2) =>
            let insActs : List Action :=
              match insertErr with
              | some _ => [.insertErrorLogged e.transferId]
              | none => [.storeInsert e.transferId]
            let payoutRes := payoutLoop env.payoutOutcome e.transferId
            if payoutRes.2 then
              let comp := processPayoutCompletion iface keccak cfg env
                e.transferId e.user e.bridgedAmount env.payoutBlockNumber s2
              .ok (insActs ++ payoutRes.1 ++ comp.1 ++ [.eventDelay], comp.2)
            else
              .ok (insActs ++ payoutRes.1 ++ [.eventDelay], s2)
        else
          .ok ([.skipNotPending e.transferId transfer.status, .eventDelay], s1)

/-- The unified variant's `for (const event of bridgeEvents)` loop.  The
`Bool` is true when an event's processing threw (aborting the loop, the
remaining events unprocessed). -/
def processInits {S : Type} (iface : StoreIface S)
    (keccak : List Nat → List Nat) (cfg : Config)
    (chain : InitEvent → ChainEnv) :
    List InitEvent → S → Bool × List Action × S
  | [], s => (false, [], s)
  | e :: rest, s =>
    match processInitEvent iface keccak cfg (chain e) e s with
    | .error (acts, s1) => (true, acts, s1)
    | .ok (acts, s1) =>
      match processInits iface keccak cfg chain rest s1 with
      | (aborted, acts2, s2) => (aborted, acts ++ acts2, s2)

/-- Processing of one `Refunded` event (identical in both variants):
unconditionally update the record's status to refunded; an error object
is only logged. -/
def processRefundEvent {S : Type} (iface : StoreIface S) (e : RefundEvent)
    (s : S) : List Action × S :=
  match iface.updateRefunded s e.transferId with
  | (some _, s1) => ([.refundUpdateErrorLogged e.transferId], s1)
  | (none, s1) => ([.storeUpdateRefunded e.transferId], s1)

/-- The `for (const event of refundEvents)` loop. -/
def processRefunds {S : Type} (iface : StoreIface S) :
    List RefundEvent → S → List Action × S
  | [], s => ([], s)
  | e :: rest, s =>
    match processRefundEvent iface e s with
    | (acts, s1) =>
      match processRefunds iface rest s1 with
      | (acts2, s2) => (acts ++ acts2, s2)

/-- Responses of the chain RPC calls a whole tick makes.  `scanInit` and
`scanRefund` are the per-chunk `queryFilter` outcomes, `chain` the
responses for processing each initiation event. -/
structure TickEnv where
  head : Except Unit Nat
  scanInit : Nat → Nat → Except Unit (List InitEvent)
  scanRefund : Nat → Nat → Except Unit (List RefundEvent)
  chain : InitEvent → ChainEnv

/-- One `setInterval` callback of the unified variant: read the head,
no-op when it is at or below the cursor, scan both event kinds over
`(cursor, head]` in 500-block chunks, process initiations then refunds,
and set the cursor to the head only at the very end.  The surrounding
`try`/`catch` means any throw leaves the cursor unchanged (effects made
before the throw persist). -/
def tick {S : Type} (iface : StoreIface S) (keccak : List Nat → List Nat)
    (cfg : Config) (env : TickEnv) (lastCheckedBlock : Nat) (s : S) :
    Nat × List Action × S :=
  match env.head with
  | .error _ => (lastCheckedBlock, [], s)
  | .ok currentBlock =>
    if currentBlock ≤ lastCheckedBlock then (lastCheckedBlock, [], s)
    else
      match scanChunks env.scanInit (lastCheckedBlock + 1) currentBlock with
      | .error _ => (lastCheckedBlock, [], s)
      | .ok bridgeEvents =>
        match scanChunks env.scanRefund (lastCheckedBlock + 1) currentBlock with
        | .error _ => (lastCheckedBlock, [], s)
        | .ok refundEvents =>
          match processInits iface keccak cfg env.chain bridgeEvents s with
          | (true, acts, s1) => (lastCheckedBlock, acts, s1)
          | (false, acts, s1) =>
            match processRefunds iface refundEvents s1 with
            | (acts2, s2) => (currentBlock, acts ++ acts2, s2)

/-! ## The minimal watcher variant (`src/watcher.js`) -/

/-- Processing of one `BridgeInitiated` event in `src/watcher.js`: same
existence check and status gate, but a single payout attempt inside a
`try`/`catch` (no retry) and no completion phase, and no inter-event
delay. -/
def processInitEventW {S : Type} (iface : StoreIface S) (env : ChainEnv)
    (e : InitEvent) (s : S) :
    Except (List Action × S) (List Action × S) :=
  match iface.selectIds s e.transferId with
  | (.error _, s1) => .ok ([.selectErrorSkip e.transferId], s1)
  | (.ok existing, s1) =>
    if 0 < existing.length then
      .ok ([.skipAlreadyInStore e.transferId], s1)
    else
      match env.transferResult with
      | .error _ => .error ([], s1)
      | .ok transfer =>
        if transfer.status = 0 then
          match iface.insert s1 (mkRow e) with
          | (insertErr, s2) =>
            let insActs : List Action :=
              match insertErr with
              | some _ => [.insertErrorLogged e.transferId]
              | none => [.storeInsert e.transferId]
            if env.payoutOutcome 0 then
              .ok (insActs ++ [.payoutAttempt e.transferId 1,
                .payoutConfirmed e.transferId], s2)
            else
              .ok (insActs ++ [.payoutAttempt e.transferId 1,
                .payoutErrorLogged e.transferId], s2)
        else
          .ok ([.skipNotPending e.transferId transfer.status], s1)

/-- The minimal variant's initiation-event loop. -/
def processInitsW {S : Type} (iface : StoreIface S)
    (chain : InitEvent → ChainEnv) :
    List InitEvent → S → Bool × List Action × S
  | [], s => (false, [], s)
  | e :: rest, s =>
    match processInitEventW iface (chain e) e s with
    | .error (acts, s1) => (true, acts, s1)
    | .ok (acts, s1) =>
      match processInitsW iface chain rest s1 with
      | (aborted, acts2, s2) => (aborted, acts ++ acts2, s2)

/-- One `setInterval` callback of `src/watcher.js`.  It recomputes
`startingBlock = Math.max(0, currentBlock - 1000)` every tick (truncated
subtraction on `Nat`), never consults `lastCheckedBlock` (there is no
head-at-or-below-cursor check), scans `[startingBlock, currentBlock]`,
and never reassigns `lastCheckedBlock`. -/
def tickW {S : Type} (iface : StoreIface S) (env : TickEnv)
    (lastCheckedBlock : Nat) (s : S) : Nat × List Action × S :=
  match env.head with
  | .error _ => (lastCheckedBlock, [], s)
  | .ok currentBlock =>
    match scanChunks env.scanInit (currentBlock - 1000) currentBlock with
    | .error _ => (lastCheckedBlock, [], s)
    | .ok bridgeEvents =>
      match scanChunks env.scanRefund (currentBlock - 1000) currentBlock with
      | .error _ => (lastCheckedBlock, [], s)
      | .ok refundEvents =>
        match processInitsW iface env.chain bridgeEvents s with
        | (true, acts, s1) => (lastCheckedBlock, acts, s1)
        | (false, acts, s1) =>
          match processRefunds iface refundEvents s1 with
          | (acts2, s2) => (lastCheckedBlock, acts ++ acts2, s2)

/-! ## Record-store instantiations -/

/-- The record store with faithful single-row Supabase semantics over a
list of rows: select returns the matching rows, insert fails with a
conflict exactly when the identifier already exists, updates rewrite the
matching rows and succeed even when no row matches. -/
def supaIface : StoreIface (List Row) where
  selectIds := fun s id =>
    (.ok ((s.filter (fun r => r.tx_id == id)).map Row.tx_id), s)
  insert := fun s r =>
    if s.any (fun r0 => r0.tx_id == r.tx_id) then (some .conflict, s)
    else (none, s ++ [r])
  updateRefunded := fun s id =>
    (none, s.map (fun r =>
      if r.tx_id == id then { r with status := .refundedRow } else r))
  updateCompleted := fun s id blk sig =>
    (none, s.map (fun r =>
      if r.tx_id == id then
        { r with
          status := .completedRow
          l1_block_number := some blk
          signature1 := some sig }
      else r))

/-- A scripted record store returning fixed responses, modelling the
watcher's view of an external store whose responses it does not control
(e.g. a conflict raced in by another writer between the existence check
and the insert). -/
def constIface (sel : Except Unit (List Nat)) (ins : Option StoreErr) :
    StoreIface Unit where
  selectIds := fun s _ => (sel, s)
  insert := fun s _ => (ins, s)
  updateRefunded := fun s _ => (none, s)
  updateCompleted := fun s _ _ _ => (none, s)

/-- The identifiers present in the record store. -/
def ids (s : List Row) : List Nat := s.map Row.tx_id

/-- Modelled from the spec: the digest claim C5 describes — the hash of
the concatenation, in fixed order, of the transfer identifier, the
recipient address, the bridged amount, and the destination-chain payout
contract address (the L1 contract). -/
def specClaimDigest (keccak : List Nat → List Nat)
    (transferId user bridgedAmount l1PayoutAddress : Nat) : List Nat :=
  keccak (toBytesBE 32 transferId ++ toBytesBE 20 user ++
    toBytesBE 32 bridgedAmount ++ toBytesBE 20 l1PayoutAddress)

/-! ## Concrete instances used to evaluate the embedding -/

/-- A concrete stand-in instantiation of the hash parameter. -/
def idHash : List Nat → List Nat := fun l => l

/-- A concrete configuration with distinct contract addresses. -/
def cfgC : Config := ⟨2, 3⟩

/-- A transfer whose authoritative status is Pending. -/
def pendingTransfer : Transfer := ⟨5, 200, 100, 1111, 0⟩

/-- A transfer whose authoritative status is Completed. -/
def completedTransfer : Transfer := ⟨5, 200, 100, 1111, 1⟩

/-- A concrete initiation event with identifier 7. -/
def evA : InitEvent := ⟨5, 200, 100, 7, 1111, 10⟩

/-- A concrete initiation event with identifier 9, used where its
`getTransfer` call throws. -/
def evT : InitEvent := ⟨5, 200, 100, 9, 1111, 1⟩

/-- A concrete refund event for identifier 7. -/
def evR : RefundEvent := ⟨7, 5, 100, 12⟩

/-- Chain responses in which every call succeeds, the transfer is Pending
throughout, and the first payout attempt confirms. -/
def envOk : ChainEnv :=
  { transferResult := .ok pendingTransfer
    payoutOutcome := fun _ => true
    payoutBlockNumber := 42
    completionTransfer := .ok pendingTransfer
    signResult := .ok 77
    doubleCheckResult := .ok pendingTransfer
    completeResult := .ok 88 }

/-- Like `envOk` but the main loop's `getTransfer` call throws. -/
def envThrow : ChainEnv := { envOk with transferResult := .error () }

/-- Like `envOk` but the pre-submission double check reports the transfer
already Completed. -/
def envGuard : ChainEnv := { envOk with doubleCheckResult := .ok completedTransfer }

/-- A tick environment over the one-block range `[1, 1]` containing the
throwing event `evT` followed by `evA`. -/
def tickEnvC4 : TickEnv :=
  { head := .ok 1
    scanInit := fun _ _ => .ok [evT, evA]
    scanRefund := fun _ _ => .ok []
    chain := fun e => if e.transferId = 9 then envThrow else envOk }

/-- A tick environment whose scans find no events. -/
def tickEnvEmpty : TickEnv :=
  { head := .ok 1
    scanInit := fun _ _ => .ok []
    scanRefund := fun _ _ => .ok []
    chain := fun _ => envOk }

/-- The digest the code actually signs for `evA` under `idHash`/`cfgC`:
the concatenation ends with the source-chain (L2) contract address. -/
def dCode : List Nat := signMessageDigest idHash 7 5 100 cfgC.l2Address

/-- A store already holding the record for `evA`. -/
def storeA : List Row := [mkRow evA]

/-- A store in which identifier 7 is already Completed. -/
def rowCompleted : Row := { mkRow evA with status := .completedRow }

/-! ## Theorems -/

theorem chunkRangesAux_of_gt (toBlock fromBlock fuel : Nat)
    (h : toBlock < fromBlock) :
    chunkRangesAux toBlock fromBlock fuel = [] := by
  cases fuel with
  | zero => rfl
  | succ n => simp [chunkRangesAux, Nat.not_le.mpr h]

theorem chunkRangesAux_length (toBlock : Nat) :
    ∀ fuel fromBlock, fromBlock ≤ toBlock →
    toBlock + 1 - fromBlock ≤ fuel →
    (chunkRangesAux toBlock fromBlock fuel).length =
      (toBlock - fromBlock) / 500 + 1 := by
  intro fuel
  induction fuel with
  | zero => intro fromBlock h hf; omega
  | succ n ih =>
    intro fromBlock h hf
    rw [chunkRangesAux, if_pos h]
    by_cases hc : toBlock ≤ fromBlock + 499
    · have ht : min (fromBlock + 499) toBlock = toBlock := by omega
      rw [ht, chunkRangesAux_of_gt _ _ _ (by omega)]
      have : (toBlock - fromBlock) / 500 = 0 := Nat.div_eq_of_lt (by omega)
      simp [this]
    · have ht : min (fromBlock + 499) toBlock = fromBlock + 499 := by omega
      rw [ht]
      have := ih (fromBlock + 500) (by omega) (by omega)
      simp only [List.length_cons, this]
      have hx : toBlock - fromBlock = (toBlock - (fromBlock + 500)) + 500 := by
        omega
      rw [hx, Nat.add_div_right _ (by norm_num)]

theorem chunkRangesAux_sizes (toBlock : Nat) :
    ∀ fuel fromBlock, ∀ r ∈ chunkRangesAux toBlock fromBlock fuel,
    fromBlock ≤ r.1 ∧ r.1 ≤ r.2 ∧ r.2 ≤ toBlock ∧ r.2 + 1 - r.1 ≤ 500 := by
  intro fuel
  induction fuel with
  | zero => intro fromBlock r hr; simp [chunkRangesAux] at hr
  | succ n ih =>
    intro fromBlock r hr
    rw [chunkRangesAux] at hr
    by_cases h : fromBlock ≤ toBlock
    · rw [if_pos h] at hr
      rcases List.mem_cons.mp hr with h1 | h2
      · subst h1
        refine ⟨le_refl _, ?_, ?_, ?_⟩ <;> simp <;> omega
      · have := ih _ _ h2
        refine ⟨?_, this.2.1, this.2.2.1, this.2.2.2⟩
        have h1 := this.1
        omega
    · rw [if_neg h] at hr; simp at hr

theorem chunkRangesAux_cover (toBlock : Nat) :
    ∀ fuel fromBlock, fromBlock ≤ toBlock →
    toBlock + 1 - fromBlock ≤ fuel →
    ((chunkRangesAux toBlock fromBlock fuel).map
      (fun r => List.range' r.1 (r.2 + 1 - r.1))).flatten =
      List.range' fromBlock (toBlock + 1 - fromBlock) := by
  intro fuel
  induction fuel with
  | zero => intro fromBlock h hf; omega
  | succ n ih =>
    intro fromBlock h hf
    rw [chunkRangesAux, if_pos h]
    by_cases hc : toBlock ≤ fromBlock + 499
    · have ht : min (fromBlock + 499) toBlock = toBlock := by omega
      rw [ht, chunkRangesAux_of_gt _ _ _ (by omega)]
      simp
    · have ht : min (fromBlock + 499) toBlock = fromBlock + 499 := by omega
      rw [ht]
      have hrec := ih (fromBlock + 500) (by omega) (by omega)
      simp only [List.map_cons, List.flatten_cons, hrec]
      have h1 : fromBlock + 499 + 1 - fromBlock = 500 := by omega
      have h2 : toBlock + 1 - fromBlock =
        (toBlock + 1 - (fromBlock + 500)) + 500 := by omega
      rw [h1, h2, ← List.range'_append_1]

theorem scanChunksAux_ok {ε : Type} (q : Nat → Nat → Except Unit (List ε))
    (f : Nat → Nat → List ε) (toBlock : Nat) :
    ∀ fuel fromBlock,
    (∀ r ∈ chunkRangesAux toBlock fromBlock fuel, q r.1 r.2 = .ok (f r.1 r.2)) →
    scanChunksAux q toBlock fromBlock fuel =
      .ok ((chunkRangesAux toBlock fromBlock fuel).map
        (fun r => f r.1 r.2)).flatten := by
  intro fuel
  induction fuel with
  | zero => intro fromBlock _; simp [scanChunksAux, chunkRangesAux]
  | succ n ih =>
    intro fromBlock hq
    rw [scanChunksAux, chunkRangesAux]
    rw [chunkRangesAux] at hq
    by_cases h : fromBlock ≤ toBlock
    · simp only [if_pos h] at hq ⊢
      have hq0 := hq (fromBlock, min (fromBlock + 499) toBlock)
        (List.mem_cons_self _ _)
      simp only at hq0
      rw [hq0]
      have hrest := ih (min (fromBlock + 499) toBlock + 1)
        (fun r hr => hq r (List.mem_cons_of_mem _ hr))
      rw [hrest]
      simp
    · rw [if_neg h, if_neg h]; simp

/-- C9: for every requested block range, the scanner splits it into
sub-ranges of at most 500 blocks queried in ascending block order
(together they partition the range, in order), the number of sub-queries
is `(to - from) / 500 + 1`, a range of exactly 500 blocks produces exactly
one sub-query and one of 501 blocks exactly two, and a fully successful
scan returns the concatenation of the per-sub-range results in that
order. -/
theorem c9_scanner_chunks_500 (a b : Nat) (h : a ≤ b) :
    (chunkRanges a b).length = (b - a) / 500 + 1 ∧
    (chunkRanges a (a + 499)).length = 1 ∧
    (chunkRanges a (a + 500)).length = 2 ∧
    (∀ r ∈ chunkRanges a b, r.1 ≤ r.2 ∧ r.2 + 1 - r.1 ≤ 500) ∧
    ((chunkRanges a b).map (fun r => List.range' r.1 (r.2 + 1 - r.1))).flatten =
      List.range' a (b + 1 - a) ∧
    (∀ (ε : Type) (q : Nat → Nat → Except Unit (List ε))
      (f : Nat → Nat → List ε),
      (∀ r ∈ chunkRanges a b, q r.1 r.2 = .ok (f r.1 r.2)) →
      scanChunks q a b =
        .ok ((chunkRanges a b).map (fun r => f r.1 r.2)).flatten) := by
  refine ⟨chunkRangesAux_length b _ a h (le_refl _), ?_, ?_, ?_, ?_, ?_⟩
  · rw [chunkRanges, chunkRangesAux_length (a + 499) _ a (by omega) (by omega)]
    simp [Nat.div_eq_of_lt]
  · rw [chunkRanges, chunkRangesAux_length (a + 500) _ a (by omega) (by omega)]
    have : a + 500 - a = 500 := by omega
    rw [this]
  · intro r hr
    have := chunkRangesAux_sizes b _ a r hr
    exact ⟨this.2.1, this.2.2.2⟩
  · exact chunkRangesAux_cover b _ a h (le_refl _)
  · intro ε q f hq
    exact scanChunksAux_ok q f b _ a hq

/-- C9 witness: the theorem applied to the concrete range `[100, 700]`
(601 blocks, hence two sub-queries). -/
theorem c9_scanner_chunks_500_witness : (chunkRanges 100 700).length = 2 := by
  have := (c9_scanner_chunks_500 100 700 (by norm_num)).1
  simpa using this

/-- C2: payout submission for one transfer makes at most exactly 3
attempts; between consecutive failed attempts the submitter waits
`2 ^ attempt` seconds (2000 ms between attempts 1 and 2, 4000 ms between
attempts 2 and 3; the 8 s of the code comment is never realized), with no
jitter and no delay after the third failure; after 3 failures no further
automatic attempt occurs in that cycle.  The equation characterizes the
loop exhaustively over all attempt outcomes. -/
theorem c2_payout_retry_bounded (outcome : Nat → Bool) (id : Nat) :
    payoutLoop outcome id =
      (if outcome 0 then
        ([.payoutAttempt id 1, .payoutConfirmed id], true)
       else if outcome 1 then
        ([.payoutAttempt id 1, .waitMs 2000, .payoutAttempt id 2,
          .payoutConfirmed id], true)
       else if outcome 2 then
        ([.payoutAttempt id 1, .waitMs 2000, .payoutAttempt id 2,
          .waitMs 4000, .payoutAttempt id 3, .payoutConfirmed id], true)
       else
        ([.payoutAttempt id 1, .waitMs 2000, .payoutAttempt id 2,
          .waitMs 4000, .payoutAttempt id 3, .payoutFailedAll id], false)) ∧
    attemptCount id (payoutLoop outcome id).1 ≤ 3 ∧
    waitsOf (payoutLoop outcome id).1 =
      List.take (attemptCount id (payoutLoop outcome id).1 - 1)
        [2000, 4000] := by
  cases h0 : outcome 0 <;> cases h1 : outcome 1 <;> cases h2 : outcome 2 <;>
    simp [payoutLoop, payoutLoopAux, h0, h1, h2, attemptCount, waitsOf,
      List.filter, List.filterMap]

/-! ### Completion-phase helpers -/

theorem completionAfterSign_acts {S : Type} (iface : StoreIface S)
    (env : ChainEnv) (tid blk sig : Nat) (s : S) :
    ∀ a ∈ (completionAfterSign iface env tid blk sig s).1,
      a = .completionError tid ∨ a = .skipCompletedStatus tid ∨
      a = .skipRefundedStatus tid ∨ a = .skipUnknownStatus tid ∨
      a = .completeCall tid ∨ a = .storeUpdateCompleted tid := by
  intro a ha
  unfold completionAfterSign at ha
  rcases hdc : env.doubleCheckResult with _ | dc <;> rw [hdc] at ha
  · simp at ha; simp [ha]
  · by_cases h1 : dc.status = 1
    · simp [h1] at ha; simp [ha]
    · by_cases h2 : dc.status = 2
      · simp [h1, h2] at ha; simp [ha]
      · by_cases h0 : dc.status = 0
        · simp [h1, h2, h0] at ha
          rcases hcr : env.completeResult with _ | tx <;> rw [hcr] at ha
          · simp at ha; rcases ha with h | h <;> simp [h]
          · rcases hu : iface.updateCompleted s tid blk sig with ⟨err, s2⟩
            rw [hu] at ha
            cases err <;> simp at ha <;> rcases ha with h | h <;> simp [h]
        · simp [h1, h2, h0] at ha; simp [ha]

theorem processPayoutCompletion_no_insert {S : Type} (iface : StoreIface S)
    (keccak : List Nat → List Nat) (cfg : Config) (env : ChainEnv)
    (tid u b blk : Nat) (s : S) (j : Nat) :
    (processPayoutCompletion iface keccak cfg env tid u b blk s).1.count
      (.storeInsert j) = 0 := by
  rw [List.count_eq_zero]
  intro hmem
  unfold processPayoutCompletion at hmem
  rcases hct : env.completionTransfer with _ | t <;> rw [hct] at hmem
  · simp at hmem
  · rcases hsr : env.signResult with _ | sig <;> rw [hsr] at hmem
    · simp at hmem
    · simp only [List.mem_cons] at hmem
      rcases hmem with h | h
      · exact Action.noConfusion h
      · have := completionAfterSign_acts iface env tid blk sig s _ h
        rcases this with h | h | h | h | h | h <;> exact Action.noConfusion h

/-- C8: when the pre-submission guard re-read returns authoritative status
Completed (1) or Refunded (2), the completion step performs zero chain
writes (no `complete` call) and zero record-store writes, and the skip is
not treated as an error; any other non-Pending status is likewise
skipped. -/
theorem c8_guard_skip_writes_nothing {S : Type} (iface : StoreIface S)
    (keccak : List Nat → List Nat) (cfg : Config) (env : ChainEnv)
    (tid u b blk : Nat) (s : S) (t : Transfer) (sig : Nat) (dc : Transfer)
    (ht : env.completionTransfer = .ok t)
    (hs : env.signResult = .ok sig)
    (hd : env.doubleCheckResult = .ok dc)
    (hnp : dc.status ≠ 0) :
    (processPayoutCompletion iface keccak cfg env tid u b blk s).2 = s ∧
    Action.completeCall tid ∉
      (processPayoutCompletion iface keccak cfg env tid u b blk s).1 ∧
    Action.storeUpdateCompleted tid ∉
      (processPayoutCompletion iface keccak cfg env tid u b blk s).1 ∧
    Action.completionError tid ∉
      (processPayoutCompletion iface keccak cfg env tid u b blk s).1 ∧
    (dc.status = 1 →
      processPayoutCompletion iface keccak cfg env tid u b blk s =
        ([.signedDigest (signMessageDigest keccak tid t.user t.bridgedAmount
          cfg.l2Address), .skipCompletedStatus tid], s)) ∧
    (dc.status = 2 →
      processPayoutCompletion iface keccak cfg env tid u b blk s =
        ([.signedDigest (signMessageDigest keccak tid t.user t.bridgedAmount
          cfg.l2Address), .skipRefundedStatus tid], s)) ∧
    (dc.status ≠ 1 → dc.status ≠ 2 →
      processPayoutCompletion iface keccak cfg env tid u b blk s =
        ([.signedDigest (signMessageDigest keccak tid t.user t.bridgedAmount
          cfg.l2Address), .skipUnknownStatus tid], s)) := by
  by_cases h1 : dc.status = 1
  · simp [processPayoutCompletion, completionAfterSign, ht, hs, hd, h1]
  · by_cases h2 : dc.status = 2
    · simp [processPayoutCompletion, completionAfterSign, ht, hs, hd, h1, h2]
    · simp [processPayoutCompletion, completionAfterSign, ht, hs, hd, h1, h2,
        hnp]

/-- C8 witness: the guard skip evaluated with the double check reporting
Completed. -/
theorem c8_guard_skip_writes_nothing_witness :
    Action.completeCall 7 ∉
      (processPayoutCompletion (constIface (.ok []) none) idHash cfgC envGuard
        7 5 100 42 ()).1 ∧
    Action.storeUpdateCompleted 7 ∉
      (processPayoutCompletion (constIface (.ok []) none) idHash cfgC envGuard
        7 5 100 42 ()).1 := by
  have h := c8_guard_skip_writes_nothing (constIface (.ok []) none) idHash
    cfgC envGuard 7 5 100 42 () pendingTransfer 77 completedTransfer
    rfl rfl rfl (by decide)
  exact ⟨h.2.1, h.2.2.1⟩

/-- C5 (amended): the digest signed during completion is the hash of the
concatenation, in fixed order, of the transfer identifier, the recipient
address and bridged amount as returned by `getTransfer`, and the
source-chain (L2) contract address on which `complete` is called — not
the destination-chain payout contract address. -/
theorem c5_digest_binds_source_contract {S : Type} (iface : StoreIface S)
    (keccak : List Nat → List Nat) (cfg : Config) (env : ChainEnv)
    (tid u b blk : Nat) (s : S) (t : Transfer) (d : List Nat)
    (ht : env.completionTransfer = .ok t)
    (hd : Action.signedDigest d ∈
      (processPayoutCompletion iface keccak cfg env tid u b blk s).1) :
    d = keccak (toBytesBE 32 tid ++ toBytesBE 20 t.user ++
      toBytesBE 32 t.bridgedAmount ++ toBytesBE 20 cfg.l2Address) := by
  rcases hsr : env.signResult with _ | sig
  · simp [processPayoutCompletion, ht, hsr] at hd
  · simp only [processPayoutCompletion, ht, hsr, List.mem_cons] at hd
    rcases hd with h | h
    · injection h with h'
    · have := completionAfterSign_acts iface env tid blk sig s _ h
      rcases this with h | h | h | h | h | h <;> exact absurd h (by simp)

/-- C5 witness: the digest theorem evaluated on a fully successful
completion run. -/
theorem c5_digest_binds_source_contract_witness :
    dCode = idHash (toBytesBE 32 7 ++ toBytesBE 20 5 ++ toBytesBE 32 100 ++
      toBytesBE 20 cfgC.l2Address) :=
  c5_digest_binds_source_contract (constIface (.ok []) none) idHash cfgC
    envOk 7 5 100 42 () pendingTransfer dCode rfl (by decide)

/-- C5 counterexample: on a concrete successful completion run with
distinct L1/L2 addresses, the digest actually signed differs from the
digest the claim describes (the one ending with the destination-chain
payout contract address). -/
theorem c5_counterexample :
    (processPayoutCompletion (constIface (.ok []) none) idHash cfgC envOk
      7 5 100 42 ()).1 =
      [.signedDigest dCode, .completeCall 7, .storeUpdateCompleted 7] ∧
    dCode ≠ specClaimDigest idHash 7 5 100 cfgC.l1Address := by
  decide

/-- The retry loop always makes a first payout attempt. -/
theorem payoutLoop_attempt1 (outcome : Nat → Bool) (id : Nat) :
    Action.payoutAttempt id 1 ∈ (payoutLoop outcome id).1 := by
  by_cases h0 : outcome 0 <;> simp [payoutLoop, payoutLoopAux, h0]

/-- C1 (amended): a transfer whose identifier the existence check finds in
the record store is skipped with no payout; but a failed insert (conflict
included) does not skip the event — the error is only logged and the
payout is still submitted for that transfer in that cycle. -/
theorem c1_skip_on_existing_not_on_conflict {S : Type} (iface : StoreIface S)
    (keccak : List Nat → List Nat) (cfg : Config) (env : ChainEnv)
    (e : InitEvent) (s : S) :
    (∀ rows s1, iface.selectIds s e.transferId = (.ok rows, s1) →
      0 < rows.length →
      processInitEvent iface keccak cfg env e s =
        .ok ([.skipAlreadyInStore e.transferId], s1)) ∧
    (∀ rows s1 t err s2, iface.selectIds s e.transferId = (.ok rows, s1) →
      rows.length = 0 → env.transferResult = .ok t → t.status = 0 →
      iface.insert s1 (mkRow e) = (some err, s2) →
      ∃ acts s3, processInitEvent iface keccak cfg env e s = .ok (acts, s3) ∧
        Action.insertErrorLogged e.transferId ∈ acts ∧
        Action.payoutAttempt e.transferId 1 ∈ acts) := by
  constructor
  · intro rows s1 hsel hlen
    unfold processInitEvent
    rw [hsel]
    simp [hlen]
  · intro rows s1 t err s2 hsel hlen ht hst hins
    unfold processInitEvent
    rw [hsel, ht]
    simp only [hlen, Nat.lt_irrefl, if_false, hst, if_true]
    simp only [hins]
    by_cases hp : (payoutLoop env.payoutOutcome e.transferId).2 <;>
      simp [hp, payoutLoop_attempt1]

/-- C1 witness: a re-observed event whose identifier is already stored is
skipped. -/
theorem c1_skip_on_existing_not_on_conflict_witness :
    processInitEvent supaIface idHash cfgC envOk evA storeA =
      .ok ([.skipAlreadyInStore 7], storeA) :=
  (c1_skip_on_existing_not_on_conflict supaIface idHash cfgC envOk evA
    storeA).1 [7] storeA (by decide) (by decide)

/-- C1 counterexample: with the existence check reporting no rows and the
insert failing with a conflict, the event is not skipped — the payout is
still submitted (and here confirmed, followed by the completion phase). -/
theorem c1_counterexample :
    (constIface (.ok []) (some .conflict)).insert () (mkRow evA) =
      (some .conflict, ()) ∧
    processInitEvent (constIface (.ok []) (some .conflict)) idHash cfgC envOk
      evA () =
      .ok ([.insertErrorLogged 7, .payoutAttempt 7 1, .payoutConfirmed 7,
        .signedDigest dCode, .completeCall 7, .storeUpdateCompleted 7,
        .eventDelay], ()) := by
  decide

/-- C4 (amended): a failing `getTransfer` call during event processing is
not caught per event — it throws out of the event loop, so the remaining
events of the tick are not processed, the refund updates do not run, and
the cursor is left unchanged (the same range is retried next tick). -/
theorem c4_gettransfer_failure_aborts_tick {S : Type} (iface : StoreIface S)
    (keccak : List Nat → List Nat) (cfg : Config) (env : TickEnv)
    (c : Nat) (s : S) :
    (∀ e rows s1, iface.selectIds s e.transferId = (.ok rows, s1) →
      rows.length = 0 → (env.chain e).transferResult = .error () →
      processInitEvent iface keccak cfg (env.chain e) e s =
        .error ([], s1)) ∧
    (∀ e rest acts s1,
      processInitEvent iface keccak cfg (env.chain e) e s =
        .error (acts, s1) →
      processInits iface keccak cfg env.chain (e :: rest) s =
        (true, acts, s1)) ∧
    (∀ h evs revs acts s1, env.head = .ok h → c < h →
      scanChunks env.scanInit (c + 1) h = .ok evs →
      scanChunks env.scanRefund (c + 1) h = .ok revs →
      processInits iface keccak cfg env.chain evs s = (true, acts, s1) →
      tick iface keccak cfg env c s = (c, acts, s1)) := by
  refine ⟨?_, ?_, ?_⟩
  · intro e rows s1 hsel hlen ht
    unfold processInitEvent
    rw [hsel, ht]
    simp [hlen]
  · intro e rest acts s1 hpe
    unfold processInits
    rw [hpe]
  · intro h evs revs acts s1 hh hlt hsi hsr hpi
    unfold tick
    rw [hh]
    simp [Nat.not_le.mpr hlt, hsi, hsr, hpi]

/-- C4 witness: the abort theorem evaluated on a tick whose first event's
`getTransfer` throws. -/
theorem c4_gettransfer_failure_aborts_tick_witness :
    tick (constIface (.ok []) none) idHash cfgC tickEnvC4 0 () =
      (0, [], ()) :=
  (c4_gettransfer_failure_aborts_tick (constIface (.ok []) none) idHash cfgC
    tickEnvC4 0 ()).2.2 1 [evT, evA] [] [] () rfl (by decide) (by decide)
    (by decide) (by decide)

/-- C4 counterexample: in the same concrete tick the claim fails — the
first event's `getTransfer` throws, and instead of only that event being
aborted, the second event `evA` is never processed (no actions at all) and
the cursor stays at 0 rather than advancing to the head 1. -/
theorem c4_counterexample :
    (tickEnvC4.chain evT).transferResult = .error () ∧
    tickEnvC4.head = .ok 1 ∧
    tick (constIface (.ok []) none) idHash cfgC tickEnvC4 0 () =
      (0, [], ()) ∧
    processInitEvent (constIface (.ok []) none) idHash cfgC
      (tickEnvC4.chain evA) evA () =
      .ok ([.storeInsert 7, .payoutAttempt 7 1, .payoutConfirmed 7,
        .signedDigest dCode, .completeCall 7, .storeUpdateCompleted 7,
        .eventDelay], ()) := by
  decide

/-- C3: the cursor is advanced to the observed head only after every event
in the scanned range has been processed (successfully or by explicit
skip); a failed head read, a failed scan of either event kind, or a throw
during the cycle's processing leaves the cursor unchanged so the same
range is retried next tick.  The last conjunct is the converse: whenever
the cursor moved, it moved exactly to a head above it, which is only
produced by the fully processed path. -/
theorem c3_cursor_advances_only_after_full_cycle {S : Type}
    (iface : StoreIface S) (keccak : List Nat → List Nat) (cfg : Config)
    (env : TickEnv) (c : Nat) (s : S) :
    (env.head = .error () → tick iface keccak cfg env c s = (c, [], s)) ∧
    (∀ h, env.head = .ok h → h ≤ c →
      tick iface keccak cfg env c s = (c, [], s)) ∧
    (∀ h, env.head = .ok h → c < h →
      scanChunks env.scanInit (c + 1) h = .error () →
      tick iface keccak cfg env c s = (c, [], s)) ∧
    (∀ h evs, env.head = .ok h → c < h →
      scanChunks env.scanInit (c + 1) h = .ok evs →
      scanChunks env.scanRefund (c + 1) h = .error () →
      tick iface keccak cfg env c s = (c, [], s)) ∧
    (∀ h evs revs acts s1, env.head = .ok h → c < h →
      scanChunks env.scanInit (c + 1) h = .ok evs →
      scanChunks env.scanRefund (c + 1) h = .ok revs →
      processInits iface keccak cfg env.chain evs s = (true, acts, s1) →
      tick iface keccak cfg env c s = (c, acts, s1)) ∧
    (∀ h evs revs acts s1 racts s2, env.head = .ok h → c < h →
      scanChunks env.scanInit (c + 1) h = .ok evs →
      scanChunks env.scanRefund (c + 1) h = .ok revs →
      processInits iface keccak cfg env.chain evs s = (false, acts, s1) →
      processRefunds iface revs s1 = (racts, s2) →
      tick iface keccak cfg env c s = (h, acts ++ racts, s2)) ∧
    (∀ c2 acts s2, tick iface keccak cfg env c s = (c2, acts, s2) →
      c2 ≠ c → env.head = .ok c2 ∧ c < c2) := by
  refine ⟨?_, ?_, ?_, ?_, ?_, ?_, ?_⟩
  · intro hh; unfold tick; rw [hh]
  · intro h hh hle; unfold tick; rw [hh]; simp [hle]
  · intro h hh hlt hsi
    unfold tick; rw [hh]; simp [Nat.not_le.mpr hlt, hsi]
  · intro h evs hh hlt hsi hsr
    unfold tick; rw [hh]; simp [Nat.not_le.mpr hlt, hsi, hsr]
  · intro h evs revs acts s1 hh hlt hsi hsr hpi
    unfold tick; rw [hh]; simp [Nat.not_le.mpr hlt, hsi, hsr, hpi]
  · intro h evs revs acts s1 racts s2 hh hlt hsi hsr hpi hpr
    unfold tick; rw [hh]; simp [Nat.not_le.mpr hlt, hsi, hsr, hpi, hpr]
  · intro c2 acts s2 heq hne
    unfold tick at heq
    rcases hh : env.head with u | h
    · rw [hh] at heq; cases heq; exact absurd rfl hne
    · rw [hh] at heq
      dsimp only at heq
      by_cases hc : h ≤ c
      · rw [if_pos hc] at heq; cases heq; exact absurd rfl hne
      · rw [if_neg hc] at heq
        rcases hsi : scanChunks env.scanInit (c + 1) h with u | evs <;>
          rw [hsi] at heq <;> dsimp only at heq
        · cases heq; exact absurd rfl hne
        · rcases hsr : scanChunks env.scanRefund (c + 1) h with u | revs <;>
            rw [hsr] at heq <;> dsimp only at heq
          · cases heq; exact absurd rfl hne
          · rcases hpi : processInits iface keccak cfg env.chain evs s with
              ⟨ab, acts1, s1⟩
            rw [hpi] at heq
            cases ab <;> dsimp only at heq
            · rcases hpr : processRefunds iface revs s1 with ⟨racts, s2x⟩
              rw [hpr] at heq
              dsimp only at heq
              simp only [Prod.mk.injEq] at heq
              obtain ⟨h1, h2, h3⟩ := heq
              subst h1
              exact ⟨rfl, by omega⟩
            · simp only [Prod.mk.injEq] at heq
              exact absurd heq.1.symm hne

/-- C3 witness: a fully successful empty cycle advances the cursor to the
head. -/
theorem c3_cursor_advances_only_after_full_cycle_witness :
    tick (constIface (.ok []) none) idHash cfgC tickEnvEmpty 0 () =
      (1, [], ()) :=
  (c3_cursor_advances_only_after_full_cycle (constIface (.ok []) none)
    idHash cfgC tickEnvEmpty 0 ()).2.2.2.2.2.1 1 [] [] [] () [] ()
    rfl (by decide) (by decide) (by decide) (by decide) (by decide)

set_option maxRecDepth 4000 in
/-- C10: in the minimal watcher variant every tick scans the fixed window
from `max(0, head - 1000)` to the head independent of previous ticks: the
tick's cursor output always equals its input (never advanced), its actions
and store effects do not depend on the cursor at all (in particular there
is no head-at-or-below-cursor no-op), the processed events are exactly
those scanned over `[head - 1000, head]`, and deduplication of re-observed
events is the record-store existence check alone. -/
theorem c10_minimal_watcher_ignores_cursor {S : Type} (iface : StoreIface S)
    (env : TickEnv) (c c' : Nat) (s : S) :
    (tickW iface env c s).1 = c ∧
    (tickW iface env c s).2 = (tickW iface env c' s).2 ∧
    (∀ h evs revs acts s1 racts s2, env.head = .ok h →
      scanChunks env.scanInit (h - 1000) h = .ok evs →
      scanChunks env.scanRefund (h - 1000) h = .ok revs →
      processInitsW iface env.chain evs s = (false, acts, s1) →
      processRefunds iface revs s1 = (racts, s2) →
      tickW iface env c s = (c, acts ++ racts, s2)) ∧
    (∀ e rows s1, iface.selectIds s e.transferId = (.ok rows, s1) →
      0 < rows.length →
      processInitEventW iface (env.chain e) e s =
        .ok ([.skipAlreadyInStore e.transferId], s1)) := by
  have key : ∀ cc : Nat, tickW iface env cc s =
      (cc, (tickW iface env 0 s).2) := by
    intro cc
    cases hh : env.head with
    | error u => simp [tickW, hh]
    | ok h =>
      cases hsi : scanChunks env.scanInit (h - 1000) h with
      | error u => simp [tickW, hh, hsi]
      | ok evs =>
        cases hsr : scanChunks env.scanRefund (h - 1000) h with
        | error u => simp [tickW, hh, hsi, hsr]
        | ok revs =>
          rcases hpw : processInitsW iface env.chain evs s with ⟨ab, acts1, s1⟩
          cases ab
          · rcases hpr : processRefunds iface revs s1 with ⟨racts, s2x⟩
            simp [tickW, hh, hsi, hsr, hpw, hpr]
          · simp [tickW, hh, hsi, hsr, hpw]
  refine ⟨?_, ?_, ?_, ?_⟩
  · rw [key c]
  · rw [key c, key c']
  · intro h evs revs acts s1 racts s2 hh hsi hsr hpw hpr
    unfold tickW
    rw [hh]
    simp [hsi, hsr, hpw, hpr]
  · intro e rows s1 hsel hlen
    unfold processInitEventW
    rw [hsel]
    simp [hlen]

/-- C10 witness: a tick of the minimal watcher evaluated at cursor 5: the
cursor stays 5 and the window `[0, 1]` is scanned. -/
theorem c10_minimal_watcher_ignores_cursor_witness :
    tickW (constIface (.ok []) none) tickEnvEmpty 5 () = (5, [], ()) :=
  (c10_minimal_watcher_ignores_cursor (constIface (.ok []) none)
    tickEnvEmpty 5 0 ()).2.2.1 1 [] [] [] () [] ()
    rfl (by decide) (by decide) (by decide) (by decide)

/-! ### Record-store helpers (faithful Supabase semantics) -/

theorem supa_select_pos_iff (s : List Row) (id : Nat) :
    0 < ((s.filter (fun r => r.tx_id == id)).map Row.tx_id).length ↔
      id ∈ ids s := by
  rw [List.length_map]
  rw [List.length_pos_iff_exists_mem]
  constructor
  · rintro ⟨r, hr⟩
    rw [List.mem_filter] at hr
    exact List.mem_map.mpr ⟨r, hr.1, by
      have := hr.2
      simp only [beq_iff_eq] at this
      exact this⟩
  · intro hmem
    obtain ⟨r, hrs, hid⟩ := List.mem_map.mp hmem
    exact ⟨r, List.mem_filter.mpr ⟨hrs, by simp [hid]⟩⟩

theorem supa_insert_new (s : List Row) (r : Row) (h : r.tx_id ∉ ids s) :
    supaIface.insert s r = (none, s ++ [r]) := by
  have hany : s.any (fun r0 => r0.tx_id == r.tx_id) = false := by
    rw [List.any_eq_false]
    intro r0 hr0
    simp only [beq_iff_eq]
    intro hEq
    exact h (List.mem_map.mpr ⟨r0, hr0, hEq⟩)
  simp only [supaIface]
  rw [hany]
  simp

theorem ids_map_preserve (f : Row → Row) (hf : ∀ r, (f r).tx_id = r.tx_id) :
    ∀ s : List Row, ids (s.map f) = ids s := by
  intro s
  induction s with
  | nil => rfl
  | cons r t ih =>
    simp only [ids, List.map_cons] at ih ⊢
    rw [hf r, ih]

theorem ids_updateRefunded (s : List Row) (id : Nat) :
    ids ((supaIface.updateRefunded s id).2) = ids s := by
  apply ids_map_preserve
  intro r
  by_cases h : r.tx_id == id <;> simp [h]

theorem ids_updateCompleted (s : List Row) (id blk sig : Nat) :
    ids ((supaIface.updateCompleted s id blk sig).2) = ids s := by
  apply ids_map_preserve
  intro r
  by_cases h : r.tx_id == id <;> simp [h]

theorem payoutLoopAux_no_insert (outcome : Nat → Bool) (id j : Nat) :
    ∀ (fuel rc : Nat),
      Action.storeInsert j ∉ (payoutLoopAux outcome id rc fuel).1 := by
  intro fuel
  induction fuel with
  | zero => intro rc; simp [payoutLoopAux]
  | succ n ih =>
    intro rc
    by_cases h0 : outcome rc
    · simp [payoutLoopAux, h0]
    · by_cases hn : n = 0
      · subst hn; simp [payoutLoopAux, h0]
      · simp [payoutLoopAux, h0, hn]
        exact ih (rc + 1)

theorem processPayoutCompletion_supa_ids (keccak : List Nat → List Nat)
    (cfg : Config) (env : ChainEnv) (tid u b blk : Nat) (s : List Row) :
    ids ((processPayoutCompletion supaIface keccak cfg env
      tid u b blk s).2) = ids s := by
  unfold processPayoutCompletion
  rcases env.completionTransfer with _ | t
  · rfl
  · rcases env.signResult with _ | sig
    · rfl
    · show ids ((completionAfterSign supaIface env tid blk sig s).2) = ids s
      unfold completionAfterSign
      rcases env.doubleCheckResult with _ | dc
      · rfl
      · by_cases h1 : dc.status = 1
        · simp [h1]
        · by_cases h2 : dc.status = 2
          · simp [h1, h2]
          · by_cases h0 : dc.status = 0
            · rcases env.completeResult with _ | tx
              · simp [h1, h2, h0]
              · simp [h1, h2, h0, supaIface]
                apply ids_map_preserve
                intro r
                split <;> rfl
            · simp [h1, h2, h0]

theorem processInitEvent_supa_mem (keccak : List Nat → List Nat)
    (cfg : Config) (env : ChainEnv) (e : InitEvent) (s : List Row)
    (hmem : e.transferId ∈ ids s) :
    processInitEvent supaIface keccak cfg env e s =
      .ok ([.skipAlreadyInStore e.transferId], s) := by
  have hpos := (supa_select_pos_iff s e.transferId).mpr hmem
  have hsel : supaIface.selectIds s e.transferId =
      (.ok ((s.filter (fun r => r.tx_id == e.transferId)).map Row.tx_id),
        s) := rfl
  unfold processInitEvent
  rw [hsel]
  dsimp only
  rw [if_pos hpos]

/-- Invariant of one initiation event over the faithful store: at most one
successful insert, none for identifiers already present, identifiers are
never removed, and an inserted identifier is present afterwards. -/
theorem processInitEvent_supa_invariant (keccak : List Nat → List Nat)
    (cfg : Config) (env : ChainEnv) (e : InitEvent) (s : List Row)
    (acts : List Action) (s' : List Row)
    (h : processInitEvent supaIface keccak cfg env e s = .ok (acts, s') ∨
         processInitEvent supaIface keccak cfg env e s = .error (acts, s')) :
    (∀ j, acts.count (.storeInsert j) ≤ 1) ∧
    (∀ j, j ∈ ids s → acts.count (.storeInsert j) = 0) ∧
    (∀ j, j ∈ ids s → j ∈ ids s') ∧
    (∀ j, 0 < acts.count (.storeInsert j) → j ∈ ids s') := by
  have hsel : supaIface.selectIds s e.transferId =
      (.ok ((s.filter (fun r => r.tx_id == e.transferId)).map Row.tx_id),
        s) := rfl
  by_cases hmem : e.transferId ∈ ids s
  · rw [processInitEvent_supa_mem keccak cfg env e s hmem] at h
    rcases h with h | h
    · injection h with h'
      injection h' with ha hs
      subst ha; subst hs
      refine ⟨?_, ?_, ?_, ?_⟩ <;> intro j <;> simp [List.count_cons]
    · exact Except.noConfusion h
  · have hpos : ¬ 0 <
        ((s.filter (fun r => r.tx_id == e.transferId)).map Row.tx_id).length :=
      fun hc => hmem ((supa_select_pos_iff s e.transferId).mp hc)
    rcases htr : env.transferResult with u | t
    · have he : processInitEvent supaIface keccak cfg env e s =
          .error ([], s) := by
        unfold processInitEvent
        rw [hsel]
        dsimp only
        rw [if_neg hpos, htr]
      rw [he] at h
      rcases h with h | h
      · exact Except.noConfusion h
      · injection h with h'
        injection h' with ha hs
        subst ha; subst hs
        refine ⟨?_, ?_, ?_, ?_⟩ <;> intro j <;> simp
    · by_cases hst : t.status = 0
      · have hins := supa_insert_new s (mkRow e) hmem
        have he : processInitEvent supaIface keccak cfg env e s =
            (if (payoutLoop env.payoutOutcome e.transferId).2 then
              .ok ([Action.storeInsert e.transferId] ++
                (payoutLoop env.payoutOutcome e.transferId).1 ++
                (processPayoutCompletion supaIface keccak cfg env
                  e.transferId e.user e.bridgedAmount env.payoutBlockNumber
                  (s ++ [mkRow e])).1 ++ [Action.eventDelay],
                (processPayoutCompletion supaIface keccak cfg env
                  e.transferId e.user e.bridgedAmount env.payoutBlockNumber
                  (s ++ [mkRow e])).2)
            else
              .ok ([Action.storeInsert e.transferId] ++
                (payoutLoop env.payoutOutcome e.transferId).1 ++
                [Action.eventDelay], s ++ [mkRow e])) := by
          have hins1 : (supaIface.insert s (mkRow e)).1 = none := by
            rw [hins]
          have hins2 : (supaIface.insert s (mkRow e)).2 = s ++ [mkRow e] := by
            rw [hins]
          unfold processInitEvent
          rw [hsel]
          dsimp only
          rw [if_neg hpos, htr]
          dsimp only
          rw [if_pos hst, hins1, hins2]
        have hcount : ∀ j acts2, (acts2 = [Action.storeInsert e.transferId] ++
            (payoutLoop env.payoutOutcome e.transferId).1 ++
            (processPayoutCompletion supaIface keccak cfg env
              e.transferId e.user e.bridgedAmount env.payoutBlockNumber
              (s ++ [mkRow e])).1 ++ [Action.eventDelay] ∨
            acts2 = [Action.storeInsert e.transferId] ++
            (payoutLoop env.payoutOutcome e.transferId).1 ++
            [Action.eventDelay]) →
            acts2.count (.storeInsert j) =
              if j = e.transferId then 1 else 0 := by
          intro j acts2 hacts2
          have hp : (payoutLoop env.payoutOutcome e.transferId).1.count
              (Action.storeInsert j) = 0 :=
            List.count_eq_zero.mpr (payoutLoopAux_no_insert _ _ _ _ _)
          have hc := processPayoutCompletion_no_insert supaIface keccak cfg
            env e.transferId e.user e.bridgedAmount env.payoutBlockNumber
            (s ++ [mkRow e]) j
          rcases hacts2 with h2 | h2 <;> subst h2 <;>
            by_cases hj : j = e.transferId
          · subst hj
            simp [List.count_append, List.count_cons, hp, hc]
          · simp [List.count_append, List.count_cons, hp, hc, hj]
          · subst hj
            simp [List.count_append, List.count_cons, hp, hc]
          · simp [List.count_append, List.count_cons, hp, hc, hj]
        have hidfinal : ∀ s2, (s2 = (processPayoutCompletion supaIface keccak
            cfg env e.transferId e.user e.bridgedAmount env.payoutBlockNumber
            (s ++ [mkRow e])).2 ∨ s2 = s ++ [mkRow e]) →
            ids s2 = ids s ++ [e.transferId] := by
          intro s2 hs2
          have hids : ids (s ++ [mkRow e]) = ids s ++ [e.transferId] := by
            simp [ids, mkRow]
          rcases hs2 with h2 | h2 <;> subst h2
          · rw [processPayoutCompletion_supa_ids]; exact hids
          · exact hids
        rw [he] at h
        by_cases hpay : (payoutLoop env.payoutOutcome e.transferId).2 = true
        · rw [if_pos hpay] at h
          rcases h with h | h
          · injection h with h'
            injection h' with ha hs
            subst ha; subst hs
            refine ⟨?_, ?_, ?_, ?_⟩ <;> intro j
            · rw [hcount j _ (Or.inl rfl)]
              split <;> omega
            · intro hjmem
              rw [hcount j _ (Or.inl rfl)]
              have hne : j ≠ e.transferId := fun hcc => hmem (hcc ▸ hjmem)
              simp [hne]
            · intro hjmem
              rw [hidfinal _ (Or.inl rfl)]
              simp [hjmem]
            · intro hcnt
              rw [hcount j _ (Or.inl rfl)] at hcnt
              rw [hidfinal _ (Or.inl rfl)]
              by_cases hj : j = e.transferId
              · simp [hj]
              · simp [hj] at hcnt
          · exact Except.noConfusion h
        · rw [if_neg hpay] at h
          rcases h with h | h
          · injection h with h'
            injection h' with ha hs
            subst ha; subst hs
            refine ⟨?_, ?_, ?_, ?_⟩ <;> intro j
            · rw [hcount j _ (Or.inr rfl)]
              split <;> omega
            · intro hjmem
              rw [hcount j _ (Or.inr rfl)]
              have hne : j ≠ e.transferId := fun hcc => hmem (hcc ▸ hjmem)
              simp [hne]
            · intro hjmem
              rw [hidfinal _ (Or.inr rfl)]
              simp [hjmem]
            · intro hcnt
              rw [hcount j _ (Or.inr rfl)] at hcnt
              rw [hidfinal _ (Or.inr rfl)]
              by_cases hj : j = e.transferId
              · simp [hj]
              · simp [hj] at hcnt
          · exact Except.noConfusion h
      · have he : processInitEvent supaIface keccak cfg env e s =
            .ok ([.skipNotPending e.transferId t.status, .eventDelay], s) := by
          unfold processInitEvent
          rw [hsel]
          dsimp only
          rw [if_neg hpos, htr]
          dsimp only
          rw [if_neg hst]
        rw [he] at h
        rcases h with h | h
        · injection h with h'
          injection h' with ha hs
          subst ha; subst hs
          refine ⟨?_, ?_, ?_, ?_⟩ <;> intro j <;> simp [List.count_cons]
        · exact Except.noConfusion h

/-- Invariant of the whole initiation-event loop over the faithful store. -/
theorem processInits_supa_invariant (keccak : List Nat → List Nat)
    (cfg : Config) (chain : InitEvent → ChainEnv) :
    ∀ (evs : List InitEvent) (s : List Row),
    (∀ j, (processInits supaIface keccak cfg chain evs s).2.1.count
      (.storeInsert j) ≤ 1) ∧
    (∀ j, j ∈ ids s →
      (processInits supaIface keccak cfg chain evs s).2.1.count
        (.storeInsert j) = 0) ∧
    (∀ j, j ∈ ids s →
      j ∈ ids (processInits supaIface keccak cfg chain evs s).2.2) ∧
    (∀ j, 0 < (processInits supaIface keccak cfg chain evs s).2.1.count
      (.storeInsert j) →
      j ∈ ids (processInits supaIface keccak cfg chain evs s).2.2) := by
  intro evs
  induction evs with
  | nil =>
    intro s
    refine ⟨?_, ?_, ?_, ?_⟩ <;> intro j <;> simp [processInits]
  | cons e rest ih =>
    intro s
    rcases hr : processInitEvent supaIface keccak cfg (chain e) e s with
      ⟨acts, s1⟩ | ⟨acts, s1⟩
    · have hinv := processInitEvent_supa_invariant keccak cfg (chain e) e s
        acts s1 (Or.inr hr)
      have heq : processInits supaIface keccak cfg chain (e :: rest) s =
          (true, acts, s1) := by
        unfold processInits
        rw [hr]
      rw [heq]
      exact hinv
    · have hinv := processInitEvent_supa_invariant keccak cfg (chain e) e s
        acts s1 (Or.inl hr)
      obtain ⟨i1, i2, i3, i4⟩ := hinv
      rcases hpi : processInits supaIface keccak cfg chain rest s1 with
        ⟨ab, acts2, s2⟩
      have ihs := ih s1
      rw [hpi] at ihs
      obtain ⟨j1, j2, j3, j4⟩ := ihs
      have heq : processInits supaIface keccak cfg chain (e :: rest) s =
          (ab, acts ++ acts2, s2) := by
        unfold processInits
        rw [hr]
        dsimp only
        rw [hpi]
      rw [heq]
      refine ⟨?_, ?_, ?_, ?_⟩ <;> intro j
      · rcases Nat.eq_zero_or_pos (acts.count (.storeInsert j)) with hz | hps
        · have := j1 j
          simp only [List.count_append, hz]
          simpa using this
        · have hj1 := i4 j hps
          have hz2 := j2 j hj1
          have hle := i1 j
          simp only [List.count_append, hz2]
          omega
      · intro hjm
        simp only [List.count_append, i2 j hjm, j2 j (i3 j hjm)]
      · intro hjm
        exact j3 j (i3 j hjm)
      · intro hcnt
        simp only [List.count_append] at hcnt
        rcases Nat.eq_zero_or_pos (acts.count (.storeInsert j)) with hz | hps
        · rw [hz] at hcnt
          simp only [Nat.zero_add] at hcnt
          exact j4 j hcnt
        · exact j3 j (i4 j hps)

/-- C6: over the faithful record store, an identifier is successfully
inserted at most once by a tick's initiation loop — in particular scanning
the same events twice (`evs ++ evs`) cannot insert twice — an identifier
already present is never inserted again, and re-observing an initiation
event whose identifier is already present produces zero additional writes:
the event is skipped with the store unchanged (no insert, no payout, no
completion). -/
theorem c6_insert_at_most_once (keccak : List Nat → List Nat) (cfg : Config)
    (chain : InitEvent → ChainEnv) (evs : List InitEvent) (s : List Row) :
    (∀ j, (processInits supaIface keccak cfg chain evs s).2.1.count
      (.storeInsert j) ≤ 1) ∧
    (∀ j, j ∈ ids s →
      (processInits supaIface keccak cfg chain evs s).2.1.count
        (.storeInsert j) = 0) ∧
    (∀ e : InitEvent, e.transferId ∈ ids s →
      processInitEvent supaIface keccak cfg (chain e) e s =
        .ok ([.skipAlreadyInStore e.transferId], s)) := by
  obtain ⟨h1, h2, h3, h4⟩ := processInits_supa_invariant keccak cfg chain evs s
  exact ⟨h1, h2, fun e hm =>
    processInitEvent_supa_mem keccak cfg (chain e) e s hm⟩

/-- C6 witness: scanning the event for the already-stored identifier 7
twice performs zero inserts of 7. -/
theorem c6_insert_at_most_once_witness :
    (processInits supaIface idHash cfgC (fun _ => envOk) [evA, evA]
      storeA).2.1.count (.storeInsert 7) = 0 :=
  (c6_insert_at_most_once idHash cfgC (fun _ => envOk) [evA, evA]
    storeA).2.1 7 (by decide)

/-- C7: a refund event unconditionally updates the record's status to
refunded, with no existence check and no terminal-status guard: the update
is reported successful whatever the prior store contents, every row with
the refunded identifier has its status overwritten to refunded regardless
of its prior status (last-write-wins), and all other rows are
untouched. -/
theorem c7_refund_unconditional_last_write_wins (e : RefundEvent)
    (s : List Row) :
    processRefundEvent supaIface e s =
      ([.storeUpdateRefunded e.transferId],
        s.map (fun r => if r.tx_id == e.transferId then
          { r with status := RecStatus.refundedRow } else r)) ∧
    (∀ r : Row, r ∈ s → r.tx_id = e.transferId →
      { r with status := RecStatus.refundedRow } ∈
        (processRefundEvent supaIface e s).2) ∧
    (∀ r : Row, r ∈ s → r.tx_id ≠ e.transferId →
      r ∈ (processRefundEvent supaIface e s).2) := by
  refine ⟨rfl, ?_, ?_⟩
  · intro r hr hid
    refine List.mem_map.mpr ⟨r, hr, ?_⟩
    simp [hid]
  · intro r hr hid
    refine List.mem_map.mpr ⟨r, hr, ?_⟩
    simp [hid]

/-- C7 witness: a record already Completed is overwritten to refunded by a
refund event (spec scenario C). -/
theorem c7_refund_unconditional_last_write_wins_witness :
    ({ rowCompleted with status := RecStatus.refundedRow } : Row) ∈
      (processRefundEvent supaIface evR [rowCompleted]).2 :=
  (c7_refund_unconditional_last_write_wins evR [rowCompleted]).2.1
    rowCompleted (by decide) (by decide)

end SuperbridgeWatcher
